import Mathlib

/-!
Verification of the HeKanKode monitoring algorithms against their design
specification.

The development shallowly embeds the three Python modules:

* `src/drift_detector.py`   — `detect_drift_ewcusum`, an EWMA-baseline +
  two-sided CUSUM drift detector (modelled over `ℝ`, with `Real.sqrt` for
  `np.sqrt`);
* `src/bad_data_detector.py` — `t_prediction_test`, a prediction-interval
  outlier screen (the Student-t critical value and cdf come from SciPy /
  the `math` module, which are external libraries, so they are taken as
  parameters);
* `src/waveform_analyzer.py` — `analyze_waveform` / `find_pa_mean`,
  a histogram reducer (modelled over `ℚ`/`ℤ`/`ℕ`, with NumPy's
  round-half-to-even and Python's truncating `int()` modelled exactly).

Machine floating point is modelled by exact real (resp. rational)
arithmetic; note that in Lean division by zero yields `0` rather than an
IEEE infinity, which none of the verified properties depend on.
-/

set_option autoImplicit false

/-! ## Drift detector (`src/drift_detector.py`) -/

/-- `1e-6`, the initial value of the EWMA variance state
(`var_t = 1e-6`, line 38 of `drift_detector.py`). -/
noncomputable def eps0 : ℝ := 1 / 1000000

/-- `1e-12`, the variance floor and the guard added to the denominator of
the standardized residual (lines 51 and 54 of `drift_detector.py`). -/
noncomputable def epsFloor : ℝ := 1 / 1000000000000

/-- Configuration of `detect_drift_ewcusum` (its keyword parameters).
`clip_z : Option ℝ` models the `clip_z is not None` check. -/
structure DriftConfig where
  alpha_baseline : ℝ
  alpha_var : ℝ
  delta : ℝ
  h : ℝ
  warmup : ℕ
  clip_z : Option ℝ

/-- The per-step detector state carried between loop iterations:
`mu_t`, `var_t` and the previously stored `S_plus[t-1]`, `S_minus[t-1]`
(which are `0` before the first step). -/
structure DriftState where
  mu : ℝ
  var : ℝ
  sp : ℝ
  sm : ℝ

/-- `mu_t = (1 - alpha_baseline) * mu_t + alpha_baseline * x[t]`. -/
noncomputable def muNext (cfg : DriftConfig) (mu xt : ℝ) : ℝ :=
  (1 - cfg.alpha_baseline) * mu + cfg.alpha_baseline * xt

/-- `var_t = (1 - alpha_var) * var_t + alpha_var * (r * r)`. -/
noncomputable def varNext (cfg : DriftConfig) (v r : ℝ) : ℝ :=
  (1 - cfg.alpha_var) * v + cfg.alpha_var * (r * r)

/-- `sigma_t = sqrt(max(var_t, 1e-12))`. -/
noncomputable def sigmaOf (v : ℝ) : ℝ :=
  Real.sqrt (max v epsFloor)

/-- `np.clip(z, -c, c)` = `min(c, max(z, -c))`, applied only when
`clip_z is not None`. -/
noncomputable def clipZ : ℝ → Option ℝ → ℝ
  | z, none => z
  | z, some c => min (max z (-c)) c

/-- `z = r / (sigma_t + 1e-12)`, winsorized by `clip_z`. -/
noncomputable def zOf (cfg : DriftConfig) (r sigma : ℝ) : ℝ :=
  clipZ (r / (sigma + epsFloor)) cfg.clip_z

/-- `S_plus_t = max(0.0, S_plus[t-1] + z - k)` with `k = delta / 2`. -/
noncomputable def spNext (cfg : DriftConfig) (sp z : ℝ) : ℝ :=
  max 0 (sp + z - cfg.delta / 2)

/-- `S_minus_t = max(0.0, S_minus[t-1] - z - k)` with `k = delta / 2`. -/
noncomputable def smNext (cfg : DriftConfig) (sm z : ℝ) : ℝ :=
  max 0 (sm - z - cfg.delta / 2)

/-- The loop body of `detect_drift_ewcusum` before the alarm test
(lines 44-63): updated baseline, variance and the freshly computed
(pre-reset) accumulator values `S_plus_t`, `S_minus_t`. -/
noncomputable def driftPre (cfg : DriftConfig) (st : DriftState) (xt : ℝ) : DriftState :=
  let mu' := muNext cfg st.mu xt
  let r := xt - mu'
  let var' := varNext cfg st.var r
  let sigma := sigmaOf var'
  let z := zOf cfg r sigma
  ⟨mu', var', spNext cfg st.sp z, smNext cfg st.sm z⟩

/-- The alarm test of line 65:
`t >= warmup and (S_plus_t > h or S_minus_t > h)`. -/
def alarmCond (cfg : DriftConfig) (t : ℕ) (sp1 sm1 : ℝ) : Prop :=
  cfg.warmup ≤ t ∧ (cfg.h < sp1 ∨ cfg.h < sm1)

noncomputable instance alarmCondDecidable (cfg : DriftConfig) (t : ℕ) (sp1 sm1 : ℝ) :
    Decidable (alarmCond cfg t sp1 sm1) := by
  unfold alarmCond
  infer_instance

/-- What one loop iteration records: the pre-reset values (`pre`), the
state carried to the next iteration and stored in the output arrays
(`post`, with the accumulators zeroed when the alarm fired), the stored
`sigma_t`, and whether an alarm was appended at this index. -/
structure DriftStepOut where
  pre : DriftState
  post : DriftState
  sigma : ℝ
  alarm : Bool

/-- One full iteration of the loop of `detect_drift_ewcusum` at index `t`
(lines 44-69), including the alarm test and re-arm reset. -/
noncomputable def driftStep (cfg : DriftConfig) (t : ℕ) (st : DriftState) (xt : ℝ) :
    DriftStepOut :=
  let st1 := driftPre cfg st xt
  let sigma := sigmaOf st1.var
  if alarmCond cfg t st1.sp st1.sm then ⟨st1, ⟨st1.mu, st1.var, 0, 0⟩, sigma, true⟩
  else ⟨st1, st1, sigma, false⟩

/-- The five output containers of `detect_drift_ewcusum`. -/
structure DriftOutput where
  alarms : List ℕ
  mu : List ℝ
  sigma : List ℝ
  S_plus : List ℝ
  S_minus : List ℝ

/-- The main loop (`for t in range(n)`), threading the state and
materializing the output arrays. -/
noncomputable def driftLoop (cfg : DriftConfig) : ℕ → DriftState → List ℝ → DriftOutput
  | _, _, [] => ⟨[], [], [], [], []⟩
  | t, st, xt :: rest =>
    let so := driftStep cfg t st xt
    let o := driftLoop cfg (t + 1) so.post rest
    ⟨if so.alarm then t :: o.alarms else o.alarms,
     so.post.mu :: o.mu, so.sigma :: o.sigma, so.post.sp :: o.S_plus, so.post.sm :: o.S_minus⟩

/-- The initial state of lines 37-38: `mu_t = x[0]`, `var_t = 1e-6`,
accumulators `0` (line 60's `if t` fallback). -/
noncomputable def initState (x0 : ℝ) : DriftState :=
  ⟨x0, eps0, 0, 0⟩

/-- `detect_drift_ewcusum` from `src/drift_detector.py`: empty input
returns all-empty containers (lines 27-29), otherwise the loop runs over
the whole sequence starting from the state initialized with `x[0]`. -/
noncomputable def detect_drift_ewcusum (cfg : DriftConfig) (x : List ℝ) : DriftOutput :=
  match x with
  | [] => ⟨[], [], [], [], []⟩
  | x0 :: rest => driftLoop cfg 0 (initState x0) (x0 :: rest)

/-- The iteration of `driftStep` along `xs` starting at index `t0` in
state `st`, evaluated at offset `i`: the `i`-th recorded `DriftStepOut`.
(For `i ≥ xs.length` a junk value is returned.) -/
noncomputable def driftStepAt (cfg : DriftConfig) : ℕ → DriftState → List ℝ → ℕ → DriftStepOut
  | _, st, [], _ => ⟨st, st, 0, false⟩
  | t0, st, xt :: _, 0 => driftStep cfg t0 st xt
  | t0, st, xt :: rest, i + 1 => driftStepAt cfg (t0 + 1) (driftStep cfg t0 st xt).post rest i

/-- The `t`-th recorded `DriftStepOut` of the run of
`detect_drift_ewcusum cfg x`. -/
noncomputable def driftStepSeq (cfg : DriftConfig) (x : List ℝ) (t : ℕ) : DriftStepOut :=
  driftStepAt cfg 0 (initState (x.getD 0 0)) x t

/-- The detector dynamics with the alarm/re-arm block (lines 65-69)
removed: the `(mu, sigma)` series the run would record if the reset never
happened.  Comparison object for the re-arm claim. -/
noncomputable def driftLoopNoReset (cfg : DriftConfig) : DriftState → List ℝ → List ℝ × List ℝ
  | _, [] => ([], [])
  | st, xt :: rest =>
    let st1 := driftPre cfg st xt
    let o := driftLoopNoReset cfg st1 rest
    (st1.mu :: o.1, sigmaOf st1.var :: o.2)

/-- `detect_drift_ewcusum` without the alarm reset: its `mu` and `sigma`
series. -/
noncomputable def detectNoReset (cfg : DriftConfig) (x : List ℝ) : List ℝ × List ℝ :=
  match x with
  | [] => ([], [])
  | x0 :: rest => driftLoopNoReset cfg (initState x0) (x0 :: rest)

/-- The per-index recurrence asserted by the specification for the series
recorded by `detect_drift_ewcusum` (claim C1): baseline update, carried
variance update, sigma from the floored variance, and the accumulator
updates from the previous step's stored values, with the stored value
zeroed exactly at alarm indices. -/
noncomputable def DriftRecurrenceAt (cfg : DriftConfig) (x : List ℝ) (t : ℕ) : Prop :=
  let out := detect_drift_ewcusum cfg x
  let v : ℕ → ℝ := fun s => (driftStepSeq cfg x s).post.var
  let muPrev := if t = 0 then x.getD 0 0 else out.mu.getD (t - 1) 0
  let vPrev := if t = 0 then eps0 else v (t - 1)
  let r := x.getD t 0 - out.mu.getD t 0
  let z := zOf cfg r (out.sigma.getD t 0)
  let spPrev := if t = 0 then 0 else out.S_plus.getD (t - 1) 0
  let smPrev := if t = 0 then 0 else out.S_minus.getD (t - 1) 0
  out.mu.getD t 0 = (1 - cfg.alpha_baseline) * muPrev + cfg.alpha_baseline * x.getD t 0
    ∧ v t = (1 - cfg.alpha_var) * vPrev + cfg.alpha_var * (r * r)
    ∧ out.sigma.getD t 0 = Real.sqrt (max (v t) epsFloor)
    ∧ out.S_plus.getD t 0 = (if t ∈ out.alarms then 0 else max 0 (spPrev + z - cfg.delta / 2))
    ∧ out.S_minus.getD t 0 = (if t ∈ out.alarms then 0 else max 0 (smPrev - z - cfg.delta / 2))

/-! ## Baseline outlier screen (`src/bad_data_detector.py`) -/

/-- `np.mean`: the arithmetic mean of a sequence. -/
noncomputable def npMean (l : List ℝ) : ℝ :=
  l.sum / l.length

/-- `np.std(·, ddof=1)`: the unbiased sample standard deviation. -/
noncomputable def npStd1 (l : List ℝ) : ℝ :=
  Real.sqrt ((l.map fun v => (v - npMean l) * (v - npMean l)).sum / ((l.length : ℝ) - 1))

/-- The message of the `ValueError` raised by `t_prediction_test` on a
baseline of fewer than 2 points. -/
def insufficientMsg : String := "Need at least 2 baseline points."

/-- The result record of `t_prediction_test`. -/
structure TPredResult where
  lower : ℝ
  upper : ℝ
  p_value : ℝ
  outlier : Bool

/-- `t_prediction_test` from `src/bad_data_detector.py`.

The Student-t critical value `tcrit = t.ppf(1 - alpha/2, df)` and the
cdf used for the p-value come from SciPy (or, in the fallback branch,
the fixed normal quantile and `math.erf`); those are external libraries,
not code of this repository, so they are taken as the parameters `tcrit`
and `tcdf`.  Everything else follows the source line by line. -/
noncomputable def t_prediction_test (baseline : List ℝ) (x_new alpha : ℝ)
    (tcrit : ℝ) (tcdf : ℝ → ℝ) : Except String TPredResult :=
  if baseline.length < 2 then .error insufficientMsg
  else
    let _ := alpha
    let xbar := npMean baseline
    let s := npStd1 baseline
    let se_pred := s * Real.sqrt (1 + 1 / (baseline.length : ℝ))
    let tstat := (x_new - xbar) / se_pred
    let p := 2 * (1 - tcdf |tstat|)
    let lo := xbar - tcrit * se_pred
    let hi := xbar + tcrit * se_pred
    .ok ⟨lo, hi, p, if x_new < lo ∨ hi < x_new then true else false⟩

/-! ## Waveform analyzer (`src/waveform_analyzer.py`) -/

/-- `int(np.round(q))`: NumPy rounds half to even, and `int()` of the
resulting integral float is exact. -/
def npRound (q : ℚ) : ℤ :=
  if q - ⌊q⌋ = (1 : ℚ) / 2 then (if ⌊q⌋ % 2 = 0 then ⌊q⌋ else ⌊q⌋ + 1)
  else round q

/-- Python `int(q)`: truncation toward zero. -/
def intPy (q : ℚ) : ℤ :=
  if 0 ≤ q then ⌊q⌋ else ⌈q⌉

/-- The quantization-mode strings accepted by `analyze_waveform`. -/
def strRound : String := "round"

/-- The second accepted quantization-mode string. -/
def strFloor : String := "floor"

/-- The message of the `ValueError` raised inside the loop of
`analyze_waveform` on an unsupported mode (quotes elided). -/
def badModeMsg : String := "quantize_mode must be round or floor"

/-- The message of the `ValueError` `np.zeros` raises on a negative size. -/
def negDimMsg : String := "negative dimensions are not allowed"

/-- `bins[pressure_int] += 1`, guarded by `0 <= pressure_int < max_pressure`
(line 46-47 of `waveform_analyzer.py`); out-of-range quantized pressures
are dropped. -/
def binIncr (bins : List ℕ) (pi maxP : ℤ) : List ℕ :=
  if 0 ≤ pi ∧ pi < maxP then bins.set pi.toNat (bins.getD pi.toNat 0 + 1) else bins

/-- The loop of `analyze_waveform` (lines 37-48): state is the histogram
and `last_time`; a sample is processed only when
`time - last_time >= blanking_time`, and then `last_time` is advanced to
its time whether or not a bin was incremented. -/
def wfLoop (blanking : ℚ) (mode : String) (maxP : ℤ) :
    List ℕ → ℚ → List (ℚ × ℚ) → Except String (List ℕ)
  | bins, _, [] => .ok bins
  | bins, lastT, (p, t) :: rest =>
    if blanking ≤ t - lastT then
      if mode = strRound then wfLoop blanking mode maxP (binIncr bins (npRound p) maxP) t rest
      else if mode = strFloor then wfLoop blanking mode maxP (binIncr bins (intPy p) maxP) t rest
      else .error badModeMsg
    else wfLoop blanking mode maxP bins lastT rest

/-- `analyze_waveform` from `src/waveform_analyzer.py`: sizes the
histogram from the maximum quantized pressure, then folds the blanking
gate over the samples.  `last_time` starts at `-blanking_time` so the
first sample always passes the gate. -/
def analyze_waveform (waveform : List (ℚ × ℚ)) (blanking_time : ℚ) (quantize_mode : String) :
    Except String (List ℕ) :=
  match waveform with
  | [] => .ok []
  | (p0, t0) :: rest =>
    let maxPressureQ := rest.foldl (fun m pt => max m pt.1) p0
    let max_pressure : ℤ :=
      (if quantize_mode = strRound then npRound maxPressureQ else intPy maxPressureQ) + 1
    if max_pressure < 0 then .error negDimMsg
    else wfLoop blanking_time quantize_mode max_pressure
      (List.replicate max_pressure.toNat 0) (-blanking_time) ((p0, t0) :: rest)

/-- `np.median` of a list of bin indices, as an exact rational: sort, then
take the middle element (odd length) or the average of the two middle
elements (even length). -/
def npMedian (l : List ℕ) : ℚ :=
  let s := List.insertionSort (· ≤ ·) l
  if s.length % 2 = 1 then ((s.getD (s.length / 2) 0 : ℕ) : ℚ)
  else (((s.getD (s.length / 2 - 1) 0 : ℕ) : ℚ) + ((s.getD (s.length / 2) 0 : ℕ) : ℚ)) / 2

/-- `find_pa_mean` from `src/waveform_analyzer.py`: mode (most frequent
value, ties broken upward) of the non-zero counts, then the median of the
bin indices holding that modal count. -/
def find_pa_mean (bins : List ℕ) : Option ℚ :=
  let nonZero := bins.filter fun c => decide (0 < c)
  if nonZero = [] then none
  else
    let maxFreq := (nonZero.map fun c => nonZero.count c).foldl max 0
    let modes := nonZero.filter fun c => nonZero.count c == maxFreq
    let modalCount := modes.foldl max 0
    let idxs := (List.range bins.length).filter fun i => bins.getD i 0 == modalCount
    if idxs = [] then none
    else some (npMedian idxs)

/-- The multiplicity of the count value `c` among the non-zero entries of
the histogram (the `Counter` of `find_pa_mean`). -/
def countFreq (bins : List ℕ) (c : ℕ) : ℕ :=
  (bins.filter fun d => decide (0 < d)).count c

/-- `c` is the modal non-zero count value of `bins` in the sense of the
specification: a non-zero count occurring in `bins`, of maximal
multiplicity among non-zero counts, and numerically largest among the
equally-frequent maximizers. -/
def IsModalCount (bins : List ℕ) (c : ℕ) : Prop :=
  c ∈ bins ∧ 0 < c ∧
    (∀ d ∈ bins, 0 < d → countFreq bins d ≤ countFreq bins c) ∧
    (∀ d ∈ bins, 0 < d → countFreq bins d = countFreq bins c → d ≤ c)

/-- The (ascending) indices of the bins holding count `c`
(`np.where(bins == modal_count)[0]`). -/
def modalIndices (bins : List ℕ) (c : ℕ) : List ℕ :=
  (List.range bins.length).filter fun i => bins.getD i 0 == c

/-- A concrete detector configuration used to exercise the theorems on a
run that actually alarms: `alpha_baseline = 0`, `alpha_var = 1`,
`delta = 0`, `h = 1/4`, `warmup = 0`, `clip_z = 1/2`. -/
noncomputable def cfgW : DriftConfig := ⟨0, 1, 0, 1/4, 0, some (1/2)⟩

/-! ## Helper lemmas: the drift-detector loop vs. its per-index unfolding -/

theorem driftPre_mu (cfg : DriftConfig) (st : DriftState) (xt : ℝ) :
    (driftPre cfg st xt).mu = muNext cfg st.mu xt := rfl

theorem driftPre_var (cfg : DriftConfig) (st : DriftState) (xt : ℝ) :
    (driftPre cfg st xt).var = varNext cfg st.var (xt - muNext cfg st.mu xt) := rfl

theorem driftPre_sp (cfg : DriftConfig) (st : DriftState) (xt : ℝ) :
    (driftPre cfg st xt).sp =
      spNext cfg st.sp (zOf cfg (xt - muNext cfg st.mu xt)
        (sigmaOf (varNext cfg st.var (xt - muNext cfg st.mu xt)))) := rfl

theorem driftPre_sm (cfg : DriftConfig) (st : DriftState) (xt : ℝ) :
    (driftPre cfg st xt).sm =
      smNext cfg st.sm (zOf cfg (xt - muNext cfg st.mu xt)
        (sigmaOf (varNext cfg st.var (xt - muNext cfg st.mu xt)))) := rfl

theorem driftStep_pre (cfg : DriftConfig) (t : ℕ) (st : DriftState) (xt : ℝ) :
    (driftStep cfg t st xt).pre = driftPre cfg st xt := by
  unfold driftStep
  by_cases hc : alarmCond cfg t (driftPre cfg st xt).sp (driftPre cfg st xt).sm <;> simp [hc]

theorem driftStep_post_mu (cfg : DriftConfig) (t : ℕ) (st : DriftState) (xt : ℝ) :
    (driftStep cfg t st xt).post.mu = (driftPre cfg st xt).mu := by
  unfold driftStep
  by_cases hc : alarmCond cfg t (driftPre cfg st xt).sp (driftPre cfg st xt).sm <;> simp [hc]

theorem driftStep_post_var (cfg : DriftConfig) (t : ℕ) (st : DriftState) (xt : ℝ) :
    (driftStep cfg t st xt).post.var = (driftPre cfg st xt).var := by
  unfold driftStep
  by_cases hc : alarmCond cfg t (driftPre cfg st xt).sp (driftPre cfg st xt).sm <;> simp [hc]

theorem driftStep_sigma (cfg : DriftConfig) (t : ℕ) (st : DriftState) (xt : ℝ) :
    (driftStep cfg t st xt).sigma = sigmaOf (driftPre cfg st xt).var := by
  unfold driftStep
  by_cases hc : alarmCond cfg t (driftPre cfg st xt).sp (driftPre cfg st xt).sm <;> simp [hc]

theorem driftStep_post_sp (cfg : DriftConfig) (t : ℕ) (st : DriftState) (xt : ℝ) :
    (driftStep cfg t st xt).post.sp =
      if alarmCond cfg t (driftPre cfg st xt).sp (driftPre cfg st xt).sm then 0
      else (driftPre cfg st xt).sp := by
  unfold driftStep
  by_cases hc : alarmCond cfg t (driftPre cfg st xt).sp (driftPre cfg st xt).sm <;> simp [hc]

theorem driftStep_post_sm (cfg : DriftConfig) (t : ℕ) (st : DriftState) (xt : ℝ) :
    (driftStep cfg t st xt).post.sm =
      if alarmCond cfg t (driftPre cfg st xt).sp (driftPre cfg st xt).sm then 0
      else (driftPre cfg st xt).sm := by
  unfold driftStep
  by_cases hc : alarmCond cfg t (driftPre cfg st xt).sp (driftPre cfg st xt).sm <;> simp [hc]

theorem driftStep_alarm_iff (cfg : DriftConfig) (t : ℕ) (st : DriftState) (xt : ℝ) :
    (driftStep cfg t st xt).alarm = true ↔
      alarmCond cfg t (driftPre cfg st xt).sp (driftPre cfg st xt).sm := by
  unfold driftStep
  by_cases hc : alarmCond cfg t (driftPre cfg st xt).sp (driftPre cfg st xt).sm <;> simp [hc]

/-- The output lists of `driftLoop` all have the length of the input. -/
theorem driftLoop_length (cfg : DriftConfig) :
    ∀ (xs : List ℝ) (t0 : ℕ) (st : DriftState),
      (driftLoop cfg t0 st xs).mu.length = xs.length ∧
      (driftLoop cfg t0 st xs).sigma.length = xs.length ∧
      (driftLoop cfg t0 st xs).S_plus.length = xs.length ∧
      (driftLoop cfg t0 st xs).S_minus.length = xs.length := by
  intro xs
  induction xs with
  | nil => intro t0 st; simp [driftLoop]
  | cons xt rest ih =>
    intro t0 st
    simpa [driftLoop] using ih (t0 + 1) (driftStep cfg t0 st xt).post

/-- Index `i` of the output lists of `driftLoop` records the fields of the
`i`-th iterated `driftStep`. -/
theorem driftLoop_get (cfg : DriftConfig) :
    ∀ (xs : List ℝ) (i t0 : ℕ) (st : DriftState), i < xs.length →
      (driftLoop cfg t0 st xs).mu.getD i 0 = (driftStepAt cfg t0 st xs i).post.mu ∧
      (driftLoop cfg t0 st xs).sigma.getD i 0 = (driftStepAt cfg t0 st xs i).sigma ∧
      (driftLoop cfg t0 st xs).S_plus.getD i 0 = (driftStepAt cfg t0 st xs i).post.sp ∧
      (driftLoop cfg t0 st xs).S_minus.getD i 0 = (driftStepAt cfg t0 st xs i).post.sm := by
  intro xs
  induction xs with
  | nil => intro i t0 st h; simp at h
  | cons xt rest ih =>
    intro i t0 st h
    cases i with
    | zero => simp [driftLoop, driftStepAt]
    | succ i =>
      have h' : i < rest.length := by simpa using h
      simpa [driftLoop, driftStepAt] using ih i (t0 + 1) (driftStep cfg t0 st xt).post h'

/-- Membership in the alarm list of `driftLoop`: exactly the indices whose
iterated step raised the alarm flag. -/
theorem driftLoop_alarms_mem (cfg : DriftConfig) :
    ∀ (xs : List ℝ) (t0 : ℕ) (st : DriftState) (j : ℕ),
      j ∈ (driftLoop cfg t0 st xs).alarms ↔
        ∃ i, i < xs.length ∧ j = t0 + i ∧ (driftStepAt cfg t0 st xs i).alarm = true := by
  intro xs
  induction xs with
  | nil => intro t0 st j; simp [driftLoop]
  | cons xt rest ih =>
    intro t0 st j
    have ihx := ih (t0 + 1) (driftStep cfg t0 st xt).post j
    constructor
    · intro hj
      by_cases ha : (driftStep cfg t0 st xt).alarm = true
      · simp only [driftLoop, ha, if_true, List.mem_cons] at hj
        rcases hj with hj | hj
        · exact ⟨0, by simp, by simpa using hj, by simpa [driftStepAt] using ha⟩
        · rcases ihx.mp hj with ⟨i, hi, hji, hfl⟩
          exact ⟨i + 1, by simpa using hi, by omega, by simpa [driftStepAt] using hfl⟩
      · simp only [driftLoop, ha, if_false] at hj
        rcases ihx.mp hj with ⟨i, hi, hji, hfl⟩
        exact ⟨i + 1, by simpa using hi, by omega, by simpa [driftStepAt] using hfl⟩
    · rintro ⟨i, hi, hji, hfl⟩
      cases i with
      | zero =>
        have ha : (driftStep cfg t0 st xt).alarm = true := by simpa [driftStepAt] using hfl
        simp [driftLoop, ha, hji]
      | succ i =>
        have hmem : j ∈ (driftLoop cfg (t0 + 1) (driftStep cfg t0 st xt).post rest).alarms :=
          ihx.mpr ⟨i, by simpa using hi, by omega, by simpa [driftStepAt] using hfl⟩
        by_cases ha : (driftStep cfg t0 st xt).alarm = true
        · simp [driftLoop, ha, hmem]
        · simpa [driftLoop, ha] using hmem

/-- Successive iterated steps are related by one `driftStep`. -/
theorem driftStepAt_succ (cfg : DriftConfig) :
    ∀ (xs : List ℝ) (i t0 : ℕ) (st : DriftState), i + 1 < xs.length →
      driftStepAt cfg t0 st xs (i + 1) =
        driftStep cfg (t0 + (i + 1)) (driftStepAt cfg t0 st xs i).post (xs.getD (i + 1) 0) := by
  intro xs
  induction xs with
  | nil => intro i t0 st h; simp at h
  | cons xt rest ih =>
    intro i t0 st h
    cases i with
    | zero =>
      cases rest with
      | nil => simp at h
      | cons y rest' => simp [driftStepAt]
    | succ i =>
      have h' : i + 1 < rest.length := by simpa using h
      have := ih i (t0 + 1) (driftStep cfg t0 st xt).post h'
      simp only [driftStepAt, List.getD_cons_succ]
      rw [this]
      congr 1
      omega

/-- The first recorded step of a nonempty run. -/
theorem driftStepSeq_zero (cfg : DriftConfig) (x0 : ℝ) (rest : List ℝ) :
    driftStepSeq cfg (x0 :: rest) 0 = driftStep cfg 0 (initState x0) x0 := by
  simp [driftStepSeq, driftStepAt]

/-- Step `t + 1` of a run is one `driftStep` applied to the state stored
by step `t`. -/
theorem driftStepSeq_succ (cfg : DriftConfig) (x : List ℝ) (t : ℕ) (h : t + 1 < x.length) :
    driftStepSeq cfg x (t + 1) =
      driftStep cfg (t + 1) (driftStepSeq cfg x t).post (x.getD (t + 1) 0) := by
  simpa [driftStepSeq] using
    driftStepAt_succ cfg x t 0 (initState (x.getD 0 0)) h

/-- Master lemma: the output series of `detect_drift_ewcusum` record, at
every in-range index, the fields of the corresponding iterated step. -/
theorem detect_get (cfg : DriftConfig) (x : List ℝ) (t : ℕ) (h : t < x.length) :
    (detect_drift_ewcusum cfg x).mu.getD t 0 = (driftStepSeq cfg x t).post.mu ∧
    (detect_drift_ewcusum cfg x).sigma.getD t 0 = (driftStepSeq cfg x t).sigma ∧
    (detect_drift_ewcusum cfg x).S_plus.getD t 0 = (driftStepSeq cfg x t).post.sp ∧
    (detect_drift_ewcusum cfg x).S_minus.getD t 0 = (driftStepSeq cfg x t).post.sm := by
  cases x with
  | nil => simp at h
  | cons x0 rest =>
    simpa [detect_drift_ewcusum, driftStepSeq] using
      driftLoop_get cfg (x0 :: rest) t 0 (initState x0) h

/-- Membership in the alarm list of `detect_drift_ewcusum`: exactly the
in-range indices whose step raised the alarm flag. -/
theorem detect_alarms_mem (cfg : DriftConfig) (x : List ℝ) (j : ℕ) :
    j ∈ (detect_drift_ewcusum cfg x).alarms ↔
      j < x.length ∧ (driftStepSeq cfg x j).alarm = true := by
  cases x with
  | nil => simp [detect_drift_ewcusum]
  | cons x0 rest =>
    rw [show detect_drift_ewcusum cfg (x0 :: rest)
        = driftLoop cfg 0 (initState x0) (x0 :: rest) from rfl]
    rw [driftLoop_alarms_mem cfg (x0 :: rest) 0 (initState x0) j]
    constructor
    · rintro ⟨i, hi, hji, hfl⟩
      subst hji
      exact ⟨by simpa using hi, by simpa [driftStepSeq] using hfl⟩
    · rintro ⟨hj, hfl⟩
      exact ⟨j, hj, by omega, by simpa [driftStepSeq] using hfl⟩

/-- `driftPre` moves the `mu` and `var` fields independently of the
accumulator fields. -/
theorem driftPre_mu_var_congr (cfg : DriftConfig) (st st' : DriftState) (xt : ℝ)
    (hmu : st.mu = st'.mu) (hvar : st.var = st'.var) :
    (driftPre cfg st xt).mu = (driftPre cfg st' xt).mu ∧
    (driftPre cfg st xt).var = (driftPre cfg st' xt).var := by
  unfold driftPre
  constructor <;> simp [hmu, hvar]

/-- The `mu` and `sigma` series of `driftLoop` agree with those of the
reset-free dynamics whenever the starting states agree on `mu` and `var`:
the alarm reset only touches the accumulators, which never feed back into
the baseline or variance. -/
theorem driftLoop_noReset_mu_sigma (cfg : DriftConfig) :
    ∀ (xs : List ℝ) (t0 : ℕ) (st st' : DriftState),
      st.mu = st'.mu → st.var = st'.var →
      (driftLoop cfg t0 st xs).mu = (driftLoopNoReset cfg st' xs).1 ∧
      (driftLoop cfg t0 st xs).sigma = (driftLoopNoReset cfg st' xs).2 := by
  intro xs
  induction xs with
  | nil => intro t0 st st' _ _; simp [driftLoop, driftLoopNoReset]
  | cons xt rest ih =>
    intro t0 st st' hmu hvar
    have hpre := driftPre_mu_var_congr cfg st st' xt hmu hvar
    have hpostmu : (driftStep cfg t0 st xt).post.mu = (driftPre cfg st' xt).mu := by
      rw [driftStep_post_mu]; exact hpre.1
    have hpostvar : (driftStep cfg t0 st xt).post.var = (driftPre cfg st' xt).var := by
      rw [driftStep_post_var]; exact hpre.2
    have ihx := ih (t0 + 1) (driftStep cfg t0 st xt).post (driftPre cfg st' xt) hpostmu hpostvar
    constructor
    · simp only [driftLoop, driftLoopNoReset]
      exact List.cons_eq_cons.mpr ⟨hpostmu, ihx.1⟩
    · simp only [driftLoop, driftLoopNoReset]
      refine List.cons_eq_cons.mpr ⟨?_, ihx.2⟩
      rw [driftStep_sigma]
      rw [hpre.2]

/-- Step 0 of the run of `cfgW` on `[0, 1]`: residual `0`, variance decays
to `0`, no alarm. -/
theorem stepW0 : driftStep cfgW 0 (initState 0) 0 =
    ⟨⟨0, 0, 0, 0⟩, ⟨0, 0, 0, 0⟩, Real.sqrt (max 0 epsFloor), false⟩ := by
  have hpre : driftPre cfgW (initState 0) 0 = ⟨0, 0, 0, 0⟩ := by
    simp only [driftPre, muNext, varNext, sigmaOf, zOf, clipZ, spNext, smNext, initState, cfgW,
      eps0, epsFloor]
    norm_num
  simp only [driftStep, hpre, sigmaOf]
  rw [if_neg (by norm_num [alarmCond, cfgW])]

/-- Step 1 of the run of `cfgW` on `[0, 1]`: standardized residual clipped
to `1/2 > h`, so the alarm fires and the stored accumulators reset. -/
theorem stepW1 : driftStep cfgW 1 ⟨0, 0, 0, 0⟩ 1 = ⟨⟨0, 1, 1/2, 0⟩, ⟨0, 1, 0, 0⟩, 1, true⟩ := by
  have hs : Real.sqrt (max (1 : ℝ) (1 / 1000000000000)) = 1 := by
    rw [max_eq_left (by norm_num : (1 : ℝ) / 1000000000000 ≤ 1)]
    exact Real.sqrt_one
  have hpre : driftPre cfgW ⟨0, 0, 0, 0⟩ 1 = ⟨0, 1, 1/2, 0⟩ := by
    simp only [driftPre, muNext, varNext, sigmaOf, zOf, clipZ, spNext, smNext, cfgW, epsFloor]
    norm_num [hs]
  simp only [driftStep, hpre, sigmaOf]
  rw [if_pos (by norm_num [alarmCond, cfgW])]
  simp [DriftStepOut.mk.injEq, epsFloor, hs]
  norm_num

/-- The full run of `cfgW` on `[0, 1]`: one alarm, at index 1. -/
theorem runW : detect_drift_ewcusum cfgW [0, 1] =
    ⟨[1], [0, 0], [Real.sqrt (max 0 epsFloor), 1], [0, 0], [0, 0]⟩ := by
  show driftLoop cfgW 0 (initState 0) [0, 1] = _
  simp only [driftLoop]
  norm_num [stepW0, stepW1]

/-- Folding `max` over a list of naturals dominates the seed. -/
theorem foldl_max_le_self (l : List ℕ) (a : ℕ) : a ≤ l.foldl max a := by
  induction l generalizing a with
  | nil => simp
  | cons x l ih => exact le_trans (le_max_left a x) (ih (max a x))

/-- Folding `max` over a list of naturals dominates every element. -/
theorem foldl_max_le (l : List ℕ) (a : ℕ) : ∀ x ∈ l, x ≤ l.foldl max a := by
  induction l generalizing a with
  | nil => simp
  | cons y l ih =>
    intro x hx
    rcases List.mem_cons.mp hx with h | h
    · subst h
      exact le_trans (le_max_right a x) (foldl_max_le_self l (max a x))
    · exact ih (max a y) x h

/-- Folding `max` over a list of naturals is attained: the result is the
seed or an element. -/
theorem foldl_max_mem (l : List ℕ) (a : ℕ) : l.foldl max a = a ∨ l.foldl max a ∈ l := by
  induction l generalizing a with
  | nil => simp
  | cons y l ih =>
    rcases ih (max a y) with h | h
    · rcases max_cases a y with ⟨hm, _⟩ | ⟨hm, _⟩
      · left
        simpa [hm] using h
      · right
        rw [List.foldl_cons, h, hm]
        exact List.mem_cons_self y l
    · right
      exact List.mem_cons_of_mem y h

/-- Every in-range recorded step of a run is one `driftStep` applied to
some predecessor state. -/
theorem driftStepSeq_is_step (cfg : DriftConfig) (x : List ℝ) (t : ℕ) (ht : t < x.length) :
    ∃ st, driftStepSeq cfg x t = driftStep cfg t st (x.getD t 0) := by
  cases t with
  | zero =>
    cases x with
    | nil => simp at ht
    | cons x0 rest => exact ⟨initState x0, by simpa using driftStepSeq_zero cfg x0 rest⟩
  | succ s => exact ⟨(driftStepSeq cfg x s).post, driftStepSeq_succ cfg x s ht⟩

/-- The `mu` and `sigma` series of the detector coincide with those of the
reset-free dynamics on every input. -/
theorem detect_mu_sigma_noReset (cfg : DriftConfig) (x : List ℝ) :
    (detect_drift_ewcusum cfg x).mu = (detectNoReset cfg x).1 ∧
    (detect_drift_ewcusum cfg x).sigma = (detectNoReset cfg x).2 := by
  cases x with
  | nil => exact ⟨rfl, rfl⟩
  | cons x0 rest =>
    exact driftLoop_noReset_mu_sigma cfg (x0 :: rest) 0 (initState x0) (initState x0) rfl rfl

/-- The recurrence package for one step, phrased against an arbitrary
predecessor state. -/
theorem driftStep_recurrence_core (cfg : DriftConfig) (x : List ℝ) (t : ℕ) (ht : t < x.length)
    (prevSt : DriftState) (hst : driftStepSeq cfg x t = driftStep cfg t prevSt (x.getD t 0)) :
    (detect_drift_ewcusum cfg x).mu.getD t 0 =
        (1 - cfg.alpha_baseline) * prevSt.mu + cfg.alpha_baseline * x.getD t 0 ∧
    (driftStepSeq cfg x t).post.var =
        (1 - cfg.alpha_var) * prevSt.var +
          cfg.alpha_var * ((x.getD t 0 - (detect_drift_ewcusum cfg x).mu.getD t 0) *
            (x.getD t 0 - (detect_drift_ewcusum cfg x).mu.getD t 0)) ∧
    (detect_drift_ewcusum cfg x).sigma.getD t 0 =
        Real.sqrt (max ((driftStepSeq cfg x t).post.var) epsFloor) ∧
    (detect_drift_ewcusum cfg x).S_plus.getD t 0 =
        (if t ∈ (detect_drift_ewcusum cfg x).alarms then 0
         else max 0 (prevSt.sp +
            zOf cfg (x.getD t 0 - (detect_drift_ewcusum cfg x).mu.getD t 0)
              ((detect_drift_ewcusum cfg x).sigma.getD t 0) - cfg.delta / 2)) ∧
    (detect_drift_ewcusum cfg x).S_minus.getD t 0 =
        (if t ∈ (detect_drift_ewcusum cfg x).alarms then 0
         else max 0 (prevSt.sm -
            zOf cfg (x.getD t 0 - (detect_drift_ewcusum cfg x).mu.getD t 0)
              ((detect_drift_ewcusum cfg x).sigma.getD t 0) - cfg.delta / 2)) := by
  obtain ⟨hmu, hsig, hsp, hsm⟩ := detect_get cfg x t ht
  have hmu' : (detect_drift_ewcusum cfg x).mu.getD t 0 = muNext cfg prevSt.mu (x.getD t 0) := by
    rw [hmu, hst, driftStep_post_mu, driftPre_mu]
  have hvar' : (driftStepSeq cfg x t).post.var =
      varNext cfg prevSt.var (x.getD t 0 - muNext cfg prevSt.mu (x.getD t 0)) := by
    rw [hst, driftStep_post_var, driftPre_var]
  have hsig' : (detect_drift_ewcusum cfg x).sigma.getD t 0 =
      sigmaOf (varNext cfg prevSt.var (x.getD t 0 - muNext cfg prevSt.mu (x.getD t 0))) := by
    rw [hsig, hst, driftStep_sigma, driftPre_var]
  have hz : zOf cfg (x.getD t 0 - (detect_drift_ewcusum cfg x).mu.getD t 0)
      ((detect_drift_ewcusum cfg x).sigma.getD t 0) =
      zOf cfg (x.getD t 0 - muNext cfg prevSt.mu (x.getD t 0))
        (sigmaOf (varNext cfg prevSt.var (x.getD t 0 - muNext cfg prevSt.mu (x.getD t 0)))) := by
    rw [hmu', hsig']
  have hiff : t ∈ (detect_drift_ewcusum cfg x).alarms ↔
      alarmCond cfg t (driftPre cfg prevSt (x.getD t 0)).sp
        (driftPre cfg prevSt (x.getD t 0)).sm := by
    rw [detect_alarms_mem]
    constructor
    · rintro ⟨-, hfl⟩
      rw [hst, driftStep_alarm_iff] at hfl
      exact hfl
    · intro hc
      refine ⟨ht, ?_⟩
      rw [hst, driftStep_alarm_iff]
      exact hc
  refine ⟨?_, ?_, ?_, ?_, ?_⟩
  · rw [hmu']
    rfl
  · rw [hvar', hmu']
    rfl
  · rw [hsig', hvar']
    rfl
  · by_cases hc : alarmCond cfg t (driftPre cfg prevSt (x.getD t 0)).sp
        (driftPre cfg prevSt (x.getD t 0)).sm
    · rw [hsp, hst, driftStep_post_sp, if_pos hc, if_pos (hiff.mpr hc)]
    · rw [hsp, hst, driftStep_post_sp, if_neg hc, if_neg (fun hmem => hc (hiff.mp hmem)), hz,
        driftPre_sp]
      rfl
  · by_cases hc : alarmCond cfg t (driftPre cfg prevSt (x.getD t 0)).sp
        (driftPre cfg prevSt (x.getD t 0)).sm
    · rw [hsm, hst, driftStep_post_sm, if_pos hc, if_pos (hiff.mpr hc)]
    · rw [hsm, hst, driftStep_post_sm, if_neg hc, if_neg (fun hmem => hc (hiff.mp hmem)), hz,
        driftPre_sm]
      rfl

/-! ## Claim theorems: drift detector -/

/-- C1: for every nonempty input and configuration, the output series of
`detect_drift_ewcusum` satisfy, at every index `t`, the per-sample
recurrences in the specified order — baseline EWMA from the previous
stored baseline (seeded with `x[0]`), carried variance EWMA on the
post-update residual (seeded with the small constant), `sigma` as the
square root of the floored variance, standardized clipped residual, and
the rectified CUSUM updates from the previous step's stored accumulator
values (zeroed exactly at alarm indices). -/
theorem drift_per_sample_recurrence (cfg : DriftConfig) (x : List ℝ) (t : ℕ)
    (ht : t < x.length) : DriftRecurrenceAt cfg x t := by
  cases t with
  | zero =>
    cases x with
    | nil => simp at ht
    | cons x0 rest =>
      have hst : driftStepSeq cfg (x0 :: rest) 0 =
          driftStep cfg 0 (initState x0) ((x0 :: rest).getD 0 0) := by
        simpa using driftStepSeq_zero cfg x0 rest
      have core := driftStep_recurrence_core cfg (x0 :: rest) 0 ht (initState x0) hst
      simpa [DriftRecurrenceAt, initState] using core
  | succ s =>
    have hs : s < x.length := by omega
    have hst := driftStepSeq_succ cfg x s ht
    have core := driftStep_recurrence_core cfg x (s + 1) ht ((driftStepSeq cfg x s).post) hst
    obtain ⟨pm, -, pp, pmm⟩ := detect_get cfg x s hs
    rw [← pm, ← pp, ← pmm] at core
    simpa [DriftRecurrenceAt] using core

/-- Witness for C1: the recurrence package holds at index 0 of the
concrete run of `cfgW` on `[0, 1]`. -/
theorem drift_per_sample_recurrence_witness :
    0 < ([(0 : ℝ), 1] : List ℝ).length ∧ DriftRecurrenceAt cfgW [0, 1] 0 :=
  ⟨by simp, drift_per_sample_recurrence cfgW [0, 1] 0 (by simp)⟩

/-- C2 (amended): at every index the variance actually used for
standardization — the square of the stored `sigma`, i.e.
`max(var_t, 1e-12)` — is at least the floor `1e-12`. -/
theorem standardization_variance_floor (cfg : DriftConfig) (x : List ℝ) (t : ℕ)
    (ht : t < x.length) :
    epsFloor ≤ ((detect_drift_ewcusum cfg x).sigma.getD t 0) ^ 2 := by
  obtain ⟨-, hsig, -, -⟩ := detect_get cfg x t ht
  obtain ⟨st, hst⟩ := driftStepSeq_is_step cfg x t ht
  rw [hsig, hst, driftStep_sigma, sigmaOf]
  have h0 : (0 : ℝ) ≤ max (driftPre cfg st (x.getD t 0)).var epsFloor :=
    le_trans (by norm_num [epsFloor]) (le_max_right _ _)
  rw [Real.sq_sqrt h0]
  exact le_max_right _ _

/-- Witness for C2's amended theorem, at index 0 of the run of `cfgW` on
`[0, 1]`. -/
theorem standardization_variance_floor_witness :
    0 < ([(0 : ℝ), 1] : List ℝ).length ∧
      epsFloor ≤ ((detect_drift_ewcusum cfgW [0, 1]).sigma.getD 0 0) ^ 2 :=
  ⟨by simp, standardization_variance_floor cfgW [0, 1] 0 (by simp)⟩

/-- Counterexample to C2 as stated: the variance state carried forward
into the next step is NOT always `≥ 1e-12`.  With `alpha_var = 1` (a
legal configuration) and the constant-ish input `[0, 1]`, the residual at
index 0 is `0`, so the carried variance after step 0 is exactly `0`,
strictly below the floor; only the value used inside the square root is
floored (`drift_detector.py` line 51 floors `var_t` without storing the
floored value back). -/
theorem carried_variance_below_floor_counterexample :
    (driftStepSeq cfgW [0, 1] 0).post.var < epsFloor := by
  have hst : driftStepSeq cfgW [0, 1] 0 = driftStep cfgW 0 (initState 0) 0 := by
    simpa using driftStepSeq_zero cfgW 0 [1]
  rw [hst, stepW0]
  norm_num [epsFloor]

/-- C3: if an alarm is recorded at index `i`, the stored accumulator
series are both `0` at `i`, while the `mu` and `sigma` series are exactly
those of the dynamics with the reset removed (so the baseline and
variance evolve unaffected at `i` and everywhere after). -/
theorem alarm_rearm_resets_accumulators (cfg : DriftConfig) (x : List ℝ) (i : ℕ)
    (hi : i ∈ (detect_drift_ewcusum cfg x).alarms) :
    (detect_drift_ewcusum cfg x).S_plus.getD i 0 = 0 ∧
    (detect_drift_ewcusum cfg x).S_minus.getD i 0 = 0 ∧
    (detect_drift_ewcusum cfg x).mu = (detectNoReset cfg x).1 ∧
    (detect_drift_ewcusum cfg x).sigma = (detectNoReset cfg x).2 := by
  obtain ⟨hlt, hfl⟩ := (detect_alarms_mem cfg x i).mp hi
  obtain ⟨-, -, hsp, hsm⟩ := detect_get cfg x i hlt
  obtain ⟨st, hst⟩ := driftStepSeq_is_step cfg x i hlt
  have hc : alarmCond cfg i (driftPre cfg st (x.getD i 0)).sp
      (driftPre cfg st (x.getD i 0)).sm := by
    rw [hst, driftStep_alarm_iff] at hfl
    exact hfl
  refine ⟨?_, ?_, (detect_mu_sigma_noReset cfg x).1, (detect_mu_sigma_noReset cfg x).2⟩
  · rw [hsp, hst, driftStep_post_sp, if_pos hc]
  · rw [hsm, hst, driftStep_post_sm, if_pos hc]

/-- Witness for C3: the run of `cfgW` on `[0, 1]` alarms at index 1, and
the conclusion holds there. -/
theorem alarm_rearm_resets_accumulators_witness :
    1 ∈ (detect_drift_ewcusum cfgW [0, 1]).alarms ∧
      ((detect_drift_ewcusum cfgW [0, 1]).S_plus.getD 1 0 = 0 ∧
       (detect_drift_ewcusum cfgW [0, 1]).S_minus.getD 1 0 = 0 ∧
       (detect_drift_ewcusum cfgW [0, 1]).mu = (detectNoReset cfgW [0, 1]).1 ∧
       (detect_drift_ewcusum cfgW [0, 1]).sigma = (detectNoReset cfgW [0, 1]).2) := by
  have hm : 1 ∈ (detect_drift_ewcusum cfgW [0, 1]).alarms := by
    simp [runW]
  exact ⟨hm, alarm_rearm_resets_accumulators cfgW [0, 1] 1 hm⟩

/-- C4: an alarm is recorded at index `t` only when `t` is at or past the
warmup AND one of the freshly computed (pre-reset) accumulators exceeds
`h`; in particular no alarm index is below `warmup`. -/
theorem alarm_requires_warmup_and_threshold (cfg : DriftConfig) (x : List ℝ) (t : ℕ)
    (ht : t ∈ (detect_drift_ewcusum cfg x).alarms) :
    cfg.warmup ≤ t ∧
      (cfg.h < (driftStepSeq cfg x t).pre.sp ∨ cfg.h < (driftStepSeq cfg x t).pre.sm) := by
  obtain ⟨hlt, hfl⟩ := (detect_alarms_mem cfg x t).mp ht
  obtain ⟨st, hst⟩ := driftStepSeq_is_step cfg x t hlt
  rw [hst, driftStep_alarm_iff] at hfl
  rw [hst, driftStep_pre]
  exact ⟨hfl.1, hfl.2⟩

/-- Witness for C4, on the alarming run of `cfgW` on `[0, 1]`. -/
theorem alarm_requires_warmup_and_threshold_witness :
    1 ∈ (detect_drift_ewcusum cfgW [0, 1]).alarms ∧
      (cfgW.warmup ≤ 1 ∧
        (cfgW.h < (driftStepSeq cfgW [0, 1] 1).pre.sp ∨
         cfgW.h < (driftStepSeq cfgW [0, 1] 1).pre.sm)) := by
  have hm : 1 ∈ (detect_drift_ewcusum cfgW [0, 1]).alarms := by
    simp [runW]
  exact ⟨hm, alarm_requires_warmup_and_threshold cfgW [0, 1] 1 hm⟩

/-- C5: the recorded CUSUM series are non-negative at every index. -/
theorem cusum_paths_nonneg (cfg : DriftConfig) (x : List ℝ) (t : ℕ) (ht : t < x.length) :
    0 ≤ (detect_drift_ewcusum cfg x).S_plus.getD t 0 ∧
    0 ≤ (detect_drift_ewcusum cfg x).S_minus.getD t 0 := by
  obtain ⟨-, -, hsp, hsm⟩ := detect_get cfg x t ht
  obtain ⟨st, hst⟩ := driftStepSeq_is_step cfg x t ht
  constructor
  · rw [hsp, hst, driftStep_post_sp]
    split
    · exact le_refl 0
    · rw [driftPre_sp, spNext]
      exact le_max_left _ _
  · rw [hsm, hst, driftStep_post_sm]
    split
    · exact le_refl 0
    · rw [driftPre_sm, smNext]
      exact le_max_left _ _

/-- Witness for C5 at index 1 of the run of `cfgW` on `[0, 1]`. -/
theorem cusum_paths_nonneg_witness :
    1 < ([(0 : ℝ), 1] : List ℝ).length ∧
      (0 ≤ (detect_drift_ewcusum cfgW [0, 1]).S_plus.getD 1 0 ∧
       0 ≤ (detect_drift_ewcusum cfgW [0, 1]).S_minus.getD 1 0) :=
  ⟨by simp, cusum_paths_nonneg cfgW [0, 1] 1 (by simp)⟩

/-- C9: on the empty input every configuration yields all five output
containers empty, with no error. -/
theorem detect_empty_input_all_empty (cfg : DriftConfig) :
    (detect_drift_ewcusum cfg []).alarms = [] ∧
    (detect_drift_ewcusum cfg []).mu = [] ∧
    (detect_drift_ewcusum cfg []).sigma = [] ∧
    (detect_drift_ewcusum cfg []).S_plus = [] ∧
    (detect_drift_ewcusum cfg []).S_minus = [] :=
  ⟨rfl, rfl, rfl, rfl, rfl⟩

/-! ## Claim theorems: outlier screen -/

/-- C6: on baseline `[10, 10, 10, 10]`, candidate `50` and `alpha = 0.01`
the screen returns (no error) with the outlier flag set — for every value
of the external Student-t critical value and cdf, since the degenerate
baseline gives `s = 0` and hence the interval `[10, 10]`. -/
theorem outlier_screen_scenario (tcrit : ℝ) (tcdf : ℝ → ℝ) :
    ∃ res : TPredResult, t_prediction_test [10, 10, 10, 10] 50 (1 / 100) tcrit tcdf = .ok res ∧
      res.outlier = true ∧ res.lower = 10 ∧ res.upper = 10 := by
  have hmean : npMean [(10 : ℝ), 10, 10, 10] = 10 := by
    norm_num [npMean]
  have hstd : npStd1 [(10 : ℝ), 10, 10, 10] = 0 := by
    rw [npStd1, hmean]
    norm_num
  unfold t_prediction_test
  rw [if_neg (by norm_num)]
  refine ⟨_, rfl, ?_, ?_, ?_⟩
  · show (if (50 : ℝ) < npMean [10, 10, 10, 10] - tcrit * (npStd1 [10, 10, 10, 10] *
        Real.sqrt (1 + 1 / (List.length [(10 : ℝ), 10, 10, 10] : ℝ))) ∨
        npMean [10, 10, 10, 10] + tcrit * (npStd1 [10, 10, 10, 10] *
        Real.sqrt (1 + 1 / (List.length [(10 : ℝ), 10, 10, 10] : ℝ))) < 50
      then true else false) = true
    rw [if_pos (Or.inr (by rw [hmean, hstd]; norm_num))]
  · show npMean [(10 : ℝ), 10, 10, 10] - tcrit * (npStd1 [10, 10, 10, 10] *
        Real.sqrt (1 + 1 / (List.length [(10 : ℝ), 10, 10, 10] : ℝ))) = 10
    rw [hmean, hstd]
    norm_num
  · show npMean [(10 : ℝ), 10, 10, 10] + tcrit * (npStd1 [10, 10, 10, 10] *
        Real.sqrt (1 + 1 / (List.length [(10 : ℝ), 10, 10, 10] : ℝ))) = 10
    rw [hmean, hstd]
    norm_num

/-- C7: the screen raises the insufficient-data error exactly on baselines
of fewer than 2 points; with at least 2 points it returns a computed
result record instead. -/
theorem outlier_screen_needs_two_points (b : List ℝ) (xn a tc : ℝ) (tcdf : ℝ → ℝ) :
    (b.length < 2 → t_prediction_test b xn a tc tcdf = .error insufficientMsg) ∧
    (2 ≤ b.length → ∃ r, t_prediction_test b xn a tc tcdf = .ok r) := by
  constructor
  · intro h
    unfold t_prediction_test
    rw [if_pos h]
  · intro h
    unfold t_prediction_test
    rw [if_neg (by omega : ¬b.length < 2)]
    exact ⟨_, rfl⟩

/-- Witness for C7: the empty baseline errors; a 2-point baseline returns
a result. -/
theorem outlier_screen_needs_two_points_witness :
    (([] : List ℝ).length < 2 ∧
      t_prediction_test [] 50 (1 / 100) 0 (fun _ => 0) = .error insufficientMsg) ∧
    (2 ≤ ([(1 : ℝ), 2] : List ℝ).length ∧
      ∃ r, t_prediction_test [1, 2] 50 (1 / 100) 0 (fun _ => 0) = .ok r) :=
  ⟨⟨by decide, (outlier_screen_needs_two_points [] 50 (1 / 100) 0 (fun _ => 0)).1 (by decide)⟩,
   ⟨by decide, (outlier_screen_needs_two_points [1, 2] 50 (1 / 100) 0 (fun _ => 0)).2 (by decide)⟩⟩

/-! ## Claim theorems: waveform analyzer -/

/-- C10 (implicit behavior of `analyze_waveform`): a sample that passes
the blanking gate but quantizes (in round mode) to a negative pressure
increments no histogram bin, yet still advances `last_time` to its own
time; consequently a following sample arriving within the blanking time
of the dropped sample is suppressed outright. -/
theorem negative_pressure_consumes_blanking_gate
    (blanking p t p' t' : ℚ) (maxP : ℤ) (bins : List ℕ) (lastT : ℚ)
    (rs rest : List (ℚ × ℚ))
    (hgate : blanking ≤ t - lastT) (hneg : npRound p < 0) (hsupp : t' - t < blanking) :
    wfLoop blanking strRound maxP bins lastT ((p, t) :: rs) =
      wfLoop blanking strRound maxP bins t rs ∧
    wfLoop blanking strRound maxP bins t ((p', t') :: rest) =
      wfLoop blanking strRound maxP bins t rest := by
  have hb : binIncr bins (npRound p) maxP = bins := by
    unfold binIncr
    rw [if_neg (fun hcon => absurd hcon.1 (not_le.mpr hneg))]
  constructor
  · simp only [wfLoop]
    rw [if_pos hgate]
    simp [hb]
  · simp only [wfLoop]
    rw [if_neg (not_le.mpr hsupp)]

/-- Witness for C10: waveform `[(-5, 0), (3, 1/20)]` with blanking `1/10`:
the negative first sample passes the gate, bins stay untouched, and the
second sample is suppressed. -/
theorem negative_pressure_consumes_blanking_gate_witness :
    ((1 / 10 : ℚ) ≤ 0 - -(1 / 10) ∧ npRound (-5) < 0 ∧ (1 / 20 : ℚ) - 0 < 1 / 10) ∧
    (wfLoop (1 / 10) strRound 4 [0, 0, 0, 0] (-(1 / 10)) [((-5 : ℚ), (0 : ℚ)), (3, 1 / 20)] =
        wfLoop (1 / 10) strRound 4 [0, 0, 0, 0] 0 [((3 : ℚ), (1 / 20 : ℚ))] ∧
      wfLoop (1 / 10) strRound 4 [0, 0, 0, 0] 0 [((3 : ℚ), (1 / 20 : ℚ))] =
        wfLoop (1 / 10) strRound 4 [0, 0, 0, 0] 0 []) :=
  ⟨⟨by norm_num, by norm_num [npRound, round_eq], by norm_num⟩,
   negative_pressure_consumes_blanking_gate (1 / 10) (-5) 0 3 (1 / 20) 4 [0, 0, 0, 0]
     (-(1 / 10)) [(3, 1 / 20)] [] (by norm_num) (by norm_num [npRound, round_eq])
     (by norm_num)⟩

theorem modal_props (bins nz : List ℕ) (hnz : nz = bins.filter fun c => decide (0 < c))
    (mf : ℕ) (hmf : mf = (nz.map fun c => nz.count c).foldl max 0)
    (modes : List ℕ) (hmodes : modes = nz.filter fun c => nz.count c == mf)
    (modal : ℕ) (hmodal : modal = modes.foldl max 0)
    (hne : ∃ c ∈ bins, 0 < c) :
    IsModalCount bins modal := by
  have hnzne : nz ≠ [] := by
    rcases hne with ⟨c, hc, hcpos⟩
    rw [hnz]
    exact List.ne_nil_of_mem (List.mem_filter_of_mem hc (by simpa using hcpos))
  have hub : ∀ c ∈ nz, nz.count c ≤ mf := by
    intro c hc
    rw [hmf]
    exact foldl_max_le _ 0 _ (List.mem_map_of_mem _ hc)
  have hattained : ∃ c0 ∈ nz, nz.count c0 = mf := by
    rcases foldl_max_mem (nz.map fun c => nz.count c) 0 with h0 | hmem
    · exfalso
      rcases List.exists_mem_of_ne_nil nz hnzne with ⟨y, hy⟩
      have h1 : 0 < nz.count y := List.count_pos_iff.mpr hy
      have h2 := hub y hy
      rw [hmf] at h2
      omega
    · rcases List.mem_map.mp hmem with ⟨c0, hc0, heq⟩
      rw [hmf]
      exact ⟨c0, hc0, heq⟩
  have hmodesne : modes ≠ [] := by
    rcases hattained with ⟨c0, hc0, hc0f⟩
    rw [hmodes]
    exact List.ne_nil_of_mem (List.mem_filter_of_mem hc0 (by simpa using hc0f))
  have hposall : ∀ y ∈ nz, 0 < y := by
    intro y hy
    rw [hnz] at hy
    simpa using List.of_mem_filter hy
  have hmodal_mem : modal ∈ modes := by
    rcases foldl_max_mem modes 0 with h0 | hmem
    · exfalso
      rcases List.exists_mem_of_ne_nil modes hmodesne with ⟨y, hy⟩
      have hy' : y ∈ nz := by
        rw [hmodes] at hy
        exact List.mem_of_mem_filter hy
      have hypos : 0 < y := hposall y hy'
      have hle : y ≤ modal := by
        rw [hmodal]
        exact foldl_max_le modes 0 y hy
      rw [hmodal] at *
      omega
    · rw [hmodal]
      exact hmem
  have hmodal_nz : modal ∈ nz := by
    rw [hmodes] at hmodal_mem
    exact List.mem_of_mem_filter hmodal_mem
  have hmodal_cnt : nz.count modal = mf := by
    rw [hmodes] at hmodal_mem
    simpa using List.of_mem_filter hmodal_mem
  have hcf : ∀ d, countFreq bins d = nz.count d := by
    intro d
    rw [hnz]
    rfl
  refine ⟨?_, hposall modal hmodal_nz, ?_, ?_⟩
  · rw [hnz] at hmodal_nz
    exact List.mem_of_mem_filter hmodal_nz
  · intro d hd hdpos
    rw [hcf, hcf, hmodal_cnt]
    exact hub d (by rw [hnz]; exact List.mem_filter_of_mem hd (by simpa using hdpos))
  · intro d hd hdpos hdeq
    have hdnz : d ∈ nz := by
      rw [hnz]
      exact List.mem_filter_of_mem hd (by simpa using hdpos)
    have hdcnt : nz.count d = mf := by
      rw [hcf, hcf] at hdeq
      rw [hdeq, hmodal_cnt]
    have hdm : d ∈ modes := by
      rw [hmodes]
      exact List.mem_filter_of_mem hdnz (by simpa using hdcnt)
    rw [hmodal]
    exact foldl_max_le modes 0 d hdm

theorem find_pa_mean_some_modal (bins : List ℕ) (hne : ∃ c ∈ bins, 0 < c) :
    ∃ m, IsModalCount bins m ∧
      find_pa_mean bins = some (npMedian (modalIndices bins m)) := by
  have hmodal := modal_props bins (bins.filter fun c => decide (0 < c)) rfl
    (((bins.filter fun c => decide (0 < c)).map
        fun c => (bins.filter fun c => decide (0 < c)).count c).foldl max 0) rfl
    ((bins.filter fun c => decide (0 < c)).filter
        fun c => (bins.filter fun c => decide (0 < c)).count c ==
          (((bins.filter fun c => decide (0 < c)).map
            fun c => (bins.filter fun c => decide (0 < c)).count c).foldl max 0)) rfl
    _ rfl hne
  refine ⟨_, hmodal, ?_⟩
  have hA : ¬(bins.filter fun c => decide (0 < c)) = [] := by
    rcases hne with ⟨c, hc, hcpos⟩
    exact List.ne_nil_of_mem (List.mem_filter_of_mem hc (by simpa using hcpos))
  obtain ⟨hmem, -, -, -⟩ := hmodal
  have hB : ¬((List.range bins.length).filter
      (fun i => bins.getD i 0 ==
        (((bins.filter fun c => decide (0 < c)).filter
          fun c => (bins.filter fun c => decide (0 < c)).count c ==
            (((bins.filter fun c => decide (0 < c)).map
              fun c => (bins.filter fun c => decide (0 < c)).count c).foldl max 0)).foldl
                max 0)) = []) := by
    rcases List.mem_iff_getElem.mp hmem with ⟨i, hilen, hieq⟩
    refine List.ne_nil_of_mem (a := i) ?_
    refine List.mem_filter_of_mem (List.mem_range.mpr hilen) ?_
    simp only [beq_iff_eq]
    rw [List.getD_eq_getElem bins 0 hilen]
    exact hieq
  simp only [find_pa_mean]
  rw [if_neg hA, if_neg hB]
  rfl

theorem find_pa_mean_mode_median (bins : List ℕ) :
    (find_pa_mean bins = none ↔ ∀ c ∈ bins, c = 0) ∧
    ((∃ c ∈ bins, 0 < c) →
      ∃ m, IsModalCount bins m ∧
        find_pa_mean bins = some (npMedian (modalIndices bins m))) := by
  constructor
  · constructor
    · intro hnone
      by_contra hcon
      push_neg at hcon
      rcases hcon with ⟨c, hc, hc0⟩
      rcases find_pa_mean_some_modal bins ⟨c, hc, Nat.pos_of_ne_zero hc0⟩ with ⟨m, -, hsome⟩
      rw [hnone] at hsome
      exact Option.noConfusion hsome
    · intro hall
      have hfil : bins.filter (fun c => decide (0 < c)) = [] := by
        rw [List.filter_eq_nil_iff]
        intro a ha
        have := hall a ha
        simp [this]
      simp only [find_pa_mean]
      rw [if_pos hfil]
  · exact find_pa_mean_some_modal bins

theorem find_pa_mean_mode_median_witness :
    (∃ c ∈ ([0, 5, 2, 8, 5, 0, 8, 1] : List ℕ), 0 < c) ∧
      ∃ m, IsModalCount [0, 5, 2, 8, 5, 0, 8, 1] m ∧
        find_pa_mean [0, 5, 2, 8, 5, 0, 8, 1] =
          some (npMedian (modalIndices [0, 5, 2, 8, 5, 0, 8, 1] m)) :=
  ⟨by decide, (find_pa_mean_mode_median [0, 5, 2, 8, 5, 0, 8, 1]).2 (by decide)⟩
